import Mathlib

/-! Shallow embedding of the SSCM binary decoder from `src/sscm_reader/__init__.py`.

The byte source is a `List Nat` of byte values with an explicit cursor,
mirroring the sequential file reads of the Python code.  `f.read n` returns up
to `n` bytes (`readRaw`); `struct.unpack` applied to a short read raises
`struct.error`, modelled as the `underflow` error (`readExact`).  IEEE-754
binary32 payload fields are decoded exactly into `F32` (a rational value plus
nan and the two infinities).  The CPython expression `10 ** (dba / 10)` is
modelled by `splA`; see its doc comment for the idealisations made around the
binary64 overflow threshold and non-integral exponents.  Console diagnostics
printed by the code are modelled as data (`Diag` records appended to a list);
the pandas DataFrame assembly that runs after the decode loop, as well as the
timestamp formatting inside the diagnostic prints, are presentation concerns
outside the decoder core and are not modelled. -/

namespace SSCM

/-- The fixed classification label list (`labels` in the source). -/
def labels : List String :=
  ["vehicle", "honking", "aircraft", "siren", "human",
   "bark", "bird", "church", "music", "wind", "rain"]

/-- The 20-byte magic signature: two null bytes followed by the ASCII bytes of
`cityai_sc_sensor_v`. -/
def MAGIC : List Nat :=
  [0, 0, 99, 105, 116, 121, 97, 105, 95, 115, 99, 95, 115, 101, 110, 115, 111, 114, 95, 118]

/-- Decode error taxonomy; every constructor corresponds to one `raise` in the
source (plus `nonAscii` for a `UnicodeDecodeError` escaping from
`bytes.decode("ascii")`, and `underflow` for `struct.error` on a short read). -/
inductive FormatError where
  | badMagic (got : List Nat)
  | unsupportedVersion (got : List Nat)
  | nonAscii
  | labelCountMismatch (got : Nat)
  | unknownEntryType (entry_type : Nat) (time_ms : Int)
  | underflow
  deriving DecidableEq

/-- Decidable equality of decode results, so that concrete decodings can be
checked by evaluation. -/
instance exceptDecEq {ε α : Type} [DecidableEq ε] [DecidableEq α] :
    DecidableEq (Except ε α) := fun a b =>
  match a, b with
  | Except.ok x, Except.ok y =>
    if h : x = y then Decidable.isTrue (by rw [h])
    else Decidable.isFalse (by
      intro hc
      injection hc with hx
      exact h hx)
  | Except.ok _, Except.error _ => Decidable.isFalse (fun hc => Except.noConfusion hc)
  | Except.error _, Except.ok _ => Decidable.isFalse (fun hc => Except.noConfusion hc)
  | Except.error x, Except.error y =>
    if h : x = y then Decidable.isTrue (by rw [h])
    else Decidable.isFalse (by
      intro hc
      injection hc with hx
      exact h hx)

/-- Exact value of an IEEE-754 binary32 datum: a rational for the finite
values, or one of the special values. -/
inductive F32 where
  | fin (q : ℚ)
  | nan
  | inf
  | neginf
  deriving DecidableEq

/-- Value domain for the result of the CPython computation `10 ** (dba / 10)`
(a binary64 float).  `exact q` is used when the true value is the rational `q`
and is exactly representable, `approxPow e` stands for the binary64
approximation of `10 ^ e` (whose exact rounded value is not modelled). -/
inductive PyFloat where
  | exact (q : ℚ)
  | approxPow (e : ℚ)
  | nan
  | inf
  deriving DecidableEq

/-- `f.read n` at cursor `pos`: up to `n` bytes, fewer when the source is
exhausted. -/
def readRaw (data : List Nat) (pos n : Nat) : List Nat :=
  (data.drop pos).take n

/-- A read whose result goes straight into `struct.unpack`: exactly `n` bytes
or `struct.error` (= `underflow`).  Returns the bytes and the new cursor. -/
def readExact (data : List Nat) (pos n : Nat) :
    Except FormatError (List Nat × Nat) :=
  if pos + n ≤ data.length then Except.ok (readRaw data pos n, pos + n)
  else Except.error FormatError.underflow

/-- Little-endian value of a byte list. -/
def leVal : List Nat → Nat
  | [] => 0
  | b :: bs => b + 256 * leVal bs

/-- Little-endian byte encoding of `v` on `k` bytes. -/
def natLE : Nat → Nat → List Nat
  | 0, _ => []
  | k + 1, v => v % 256 :: natLE k (v / 256)

/-- Two's-complement reading of an unsigned 64-bit value, as done by
`struct.unpack` with format `q`. -/
def toSigned64 (v : Nat) : Int :=
  if v < 2 ^ 63 then (v : Int) else (v : Int) - 2 ^ 64

/-- Exact IEEE-754 binary32 decoding of a 32-bit pattern. -/
def f32val (bits : Nat) : F32 :=
  let s : Nat := bits / 2 ^ 31 % 2
  let e : Nat := bits / 2 ^ 23 % 2 ^ 8
  let m : Nat := bits % 2 ^ 23
  if e = 255 then
    if m = 0 then (if s = 1 then F32.neginf else F32.inf) else F32.nan
  else
    let mag : ℚ :=
      if e = 0 then (m : ℚ) * (2 : ℚ) ^ (-(149 : ℤ))
      else ((2 ^ 23 + m : ℕ) : ℚ) * (2 : ℚ) ^ ((e : ℤ) - 150)
    if s = 1 then F32.fin (-mag) else F32.fin mag

/-- Model of the CPython expression `10 ** (dba / 10)` evaluated on the
binary32 value `dba`, with `none` standing for `OverflowError`.

CPython semantics: a nan exponent yields nan, `+inf` yields `+inf`, `-inf`
yields `0.0`, none of which raise; for a finite exponent, `OverflowError` is
raised exactly when the binary64 result is infinite, which happens when
`dba / 10` exceeds `log10` of the largest double, about `308.2547` (so `dba`
above about `3082.55`).  The model uses the nearby rational bound `3083`; no
theorem in this development depends on the values in the narrow band between
the two bounds.  When `dba / 10` is a non-negative integer at most 22 the true
result `10 ^ (dba / 10)` is exactly representable in binary64 and a correctly
rounded `pow` returns it; those results are modelled exactly, and all other
finite results are kept as the symbolic approximation `approxPow (dba / 10)`. -/
def splA : F32 → Option PyFloat
  | F32.nan => some PyFloat.nan
  | F32.inf => some PyFloat.inf
  | F32.neginf => some (PyFloat.exact 0)
  | F32.fin q =>
      if 3083 ≤ q then none
      else if (q / 10).den = 1 ∧ 0 ≤ q ∧ q ≤ 220 then
        some (PyFloat.exact (10 ^ (q / 10).num.toNat))
      else some (PyFloat.approxPow (q / 10))

/-- One row of the `loudness` output. -/
structure LoudRec where
  time : Int
  dba : F32
  spl : PyFloat
  deriving DecidableEq

/-- One row of the `sharpness` output. -/
structure SharpRec where
  time : Int
  sharpness : F32
  deriving DecidableEq

/-- One row of the `source` output: the timestamp followed by one probability
per classification label. -/
structure SourceRec where
  time : Int
  probs : List F32
  deriving DecidableEq

/-- One row of the `voltage` output. -/
structure VoltRec where
  time : Int
  mV : Nat
  deriving DecidableEq

/-- Value column of an event-log row: the integer `0` or sleep seconds, or the
sampling-rate float of a `NIGHTLY_PD` event. -/
inductive EValue where
  | int (n : Nat)
  | flt (v : F32)
  deriving DecidableEq

/-- One row of the `event_log` output. -/
structure EventRec where
  time : Int
  event : String
  value : EValue
  deriving DecidableEq

/-- One diagnostic emitted by the dBA-to-SPL recovery branch: the prints
capture the number of loudness entries decoded so far, the entry type, the
timestamp and the raw dBA value. -/
structure Diag where
  idx : Nat
  entry_type : Nat
  time : Int
  dba : F32
  deriving DecidableEq

/-- Header fields returned by `read_header`. -/
structure Header where
  format_version : List Nat
  file_created_ts : Nat
  sensor_name : List Nat
  num_source_classes : Nat
  deriving DecidableEq

/-- `bytes.decode("ascii")` succeeds exactly when every byte is below 128. -/
def asciiOk (l : List Nat) : Bool :=
  l.all (fun b => decide (b < 128))

/-- Model of `read_header`: validates the magic and the format version, then
reads the creation timestamp, the length-prefixed sensor name and the declared
class count.  Returns the header fields together with the cursor position
after the header (its only side effect in the source is advancing the
cursor). -/
def read_header (data : List Nat) : Except FormatError (Header × Nat) :=
  let magic := readRaw data 0 20
  if magic = MAGIC then
    let p1 := min 20 data.length
    let vb := readRaw data p1 2
    let p2 := min (p1 + 2) data.length
    if asciiOk vb then
      if vb = [48, 49] then
        match readExact data p2 4 with
        | Except.error e => Except.error e
        | Except.ok (tsb, p3) =>
          match readExact data p3 1 with
          | Except.error e => Except.error e
          | Except.ok (lb, p4) =>
            let nameLen := leVal lb
            let nameBytes := readRaw data p4 nameLen
            let p5 := min (p4 + nameLen) data.length
            if asciiOk nameBytes then
              match readExact data p5 1 with
              | Except.error e => Except.error e
              | Except.ok (cb, p6) =>
                let n := leVal cb
                if n = labels.length then
                  Except.ok (⟨vb, leVal tsb, nameBytes, n⟩, p6)
                else Except.error (FormatError.labelCountMismatch n)
            else Except.error FormatError.nonAscii
      else Except.error (FormatError.unsupportedVersion vb)
    else Except.error FormatError.nonAscii
  else Except.error (FormatError.badMagic magic)

/-- Mutable state of the entry loop: the cursor plus the five output lists and
the emitted diagnostics. -/
structure DState where
  pos : Nat
  loudness : List LoudRec
  sharpness : List SharpRec
  source : List SourceRec
  voltage : List VoltRec
  event_log : List EventRec
  diags : List Diag
  deriving DecidableEq

/-- Read one binary32 field. -/
def readF32 (data : List Nat) (pos : Nat) : Except FormatError (F32 × Nat) :=
  match readExact data pos 4 with
  | Except.ok (bs, p) => Except.ok (f32val (leVal bs), p)
  | Except.error e => Except.error e

/-- Read `k` consecutive binary32 fields (the type-1 probability loop). -/
def readFloats (data : List Nat) : Nat → Nat → Except FormatError (List F32 × Nat)
  | pos, 0 => Except.ok ([], pos)
  | pos, k + 1 =>
    match readF32 data pos with
    | Except.error e => Except.error e
    | Except.ok (v, p) =>
      match readFloats data p k with
      | Except.error e => Except.error e
      | Except.ok (vs, p2) => Except.ok (v :: vs, p2)

/-- The marker resynchronization at the top of each loop iteration: read two
bytes; when they equal `0xFF 0xFF` keep the advanced cursor, otherwise seek
back two bytes from wherever the read ended (`f.seek(f.tell() - 2)`).  Like
`f.read`, the probe reads fewer than two bytes near the end of the source. -/
def markerProbe (data : List Nat) (pos : Nat) : Nat :=
  let p2 := min (pos + 2) data.length
  if readRaw data pos 2 = [255, 255] then p2 else p2 - 2

/-- Everything one loop iteration does after the marker probe, starting at
cursor `p`: read the type tag and the timestamp, dispatch on the tag, read the
payload and append one record (or one diagnostic) to the state. -/
def stepBody (data : List Nat) (nsc : Nat) (p : Nat) (s : DState) :
    Except FormatError DState :=
  match readExact data p 1 with
  | Except.error e => Except.error e
  | Except.ok (tb, p1) =>
    match readExact data p1 8 with
    | Except.error e => Except.error e
    | Except.ok (t8, p2) =>
      if leVal tb = 0 then
        match readF32 data p2 with
        | Except.error e => Except.error e
        | Except.ok (dba, p3) =>
          match readF32 data p3 with
          | Except.error e => Except.error e
          | Except.ok (_, p4) =>
            match splA dba with
            | some spl =>
              Except.ok { s with pos := p4, loudness := s.loudness ++ [⟨toSigned64 (leVal t8), dba, spl⟩] }
            | none =>
              Except.ok { s with pos := p4, diags := s.diags ++ [⟨s.loudness.length, leVal tb, toSigned64 (leVal t8), dba⟩] }
      else if leVal tb = 1 then
        match readFloats data p2 nsc with
        | Except.error e => Except.error e
        | Except.ok (ps, p3) =>
          Except.ok { s with pos := p3, source := s.source ++ [⟨toSigned64 (leVal t8), ps⟩] }
      else if leVal tb = 2 then
        match readF32 data p2 with
        | Except.error e => Except.error e
        | Except.ok (v, p3) =>
          Except.ok { s with pos := p3, sharpness := s.sharpness ++ [⟨toSigned64 (leVal t8), v⟩] }
      else if leVal tb = 100 then
        match readExact data p2 2 with
        | Except.error e => Except.error e
        | Except.ok (bs, p3) =>
          Except.ok { s with pos := p3, voltage := s.voltage ++ [⟨toSigned64 (leVal t8), leVal bs⟩] }
      else if leVal tb = 110 then
        Except.ok { s with pos := p2, event_log := s.event_log ++ [⟨toSigned64 (leVal t8), "TIME_FROM_NTP", EValue.int 0⟩] }
      else if leVal tb = 111 then
        Except.ok { s with pos := p2, event_log := s.event_log ++ [⟨toSigned64 (leVal t8), "TIME_FROM_RTC", EValue.int 0⟩] }
      else if leVal tb = 120 then
        match readExact data p2 2 with
        | Except.error e => Except.error e
        | Except.ok (bs, p3) =>
          Except.ok { s with pos := p3, event_log := s.event_log ++ [⟨toSigned64 (leVal t8), "ENTER_SLEEP", EValue.int (leVal bs)⟩] }
      else if leVal tb = 121 then
        match readF32 data p2 with
        | Except.error e => Except.error e
        | Except.ok (v, p3) =>
          Except.ok { s with pos := p3, event_log := s.event_log ++ [⟨toSigned64 (leVal t8), "NIGHTLY_PD", EValue.flt v⟩] }
      else Except.error (FormatError.unknownEntryType (leVal tb) (toSigned64 (leVal t8)))

/-- One full iteration of the entry loop: marker probe, then tag dispatch. -/
def step (data : List Nat) (nsc : Nat) (s : DState) : Except FormatError DState :=
  stepBody data nsc (markerProbe data s.pos) s

/-- The entry loop, fuelled: while the cursor is before the end of the source,
run one iteration; a raised error aborts the whole loop.  Every continuing
iteration advances the cursor by at least nine bytes, so fuel equal to the
source length always suffices. -/
def loopAux (data : List Nat) (nsc : Nat) : Nat → DState → Except FormatError DState
  | 0, s => Except.ok s
  | fuel + 1, s =>
    if s.pos < data.length then
      match step data nsc s with
      | Except.ok s2 => loopAux data nsc fuel s2
      | Except.error e => Except.error e
    else Except.ok s

/-- The decoded content of one stream: the sensor name and the five record
sequences, plus the diagnostics emitted by the recovery branch. -/
structure SSCMResult where
  sensor_name : List Nat
  loudness : List LoudRec
  sharpness : List SharpRec
  source : List SourceRec
  voltage : List VoltRec
  event_log : List EventRec
  diags : List Diag
  deriving DecidableEq

/-- Model of `read_sscm` on one byte stream: decode the header, then run the
entry loop from the cursor to the end of the source. -/
def read_sscm (data : List Nat) : Except FormatError SSCMResult :=
  match read_header data with
  | Except.error e => Except.error e
  | Except.ok (h, pos) =>
    match loopAux data h.num_source_classes data.length ⟨pos, [], [], [], [], [], []⟩ with
    | Except.error e => Except.error e
    | Except.ok s =>
      Except.ok ⟨h.sensor_name, s.loudness, s.sharpness, s.source, s.voltage,
        s.event_log, s.diags⟩

/-- The set of entry-type tags recognised by the dispatch. -/
def validTags : List Nat := [0, 1, 2, 100, 110, 111, 120, 121]

/-- All bytes of a list are byte values. -/
def bytesOk (l : List Nat) : Bool :=
  l.all (fun b => decide (b < 256))

/-- A well-formed binary32 field: four byte values. -/
def f32ok (l : List Nat) : Bool :=
  decide (l.length = 4) && bytesOk l

/-- `t` fits in a signed 64-bit integer. -/
def tRangeB (t : Int) : Bool :=
  decide (-(2 ^ 63) ≤ t) && decide (t < 2 ^ 63)

/-- Little-endian two's-complement encoding of a signed 64-bit timestamp. -/
def i64le (t : Int) : List Nat :=
  natLE 8 (t % (2 ^ 64 : Int)).toNat

/-- An abstract well-formed stream entry, used to state the marker-tolerance
property over arbitrary entry sequences.  Float payload fields are carried as
their raw four-byte little-endian patterns. -/
inductive Entry where
  | loudE (t : Int) (d r : List Nat)
  | sourceE (t : Int) (ps : List (List Nat))
  | sharpE (t : Int) (v : List Nat)
  | voltE (t : Int) (mv : Nat)
  | ntpE (t : Int)
  | rtcE (t : Int)
  | sleepE (t : Int) (secs : Nat)
  | nightlyE (t : Int) (rate : List Nat)
  deriving DecidableEq

/-- Well-formedness of an entry: a known tag shape, byte-valued payloads, a
timestamp in signed 64-bit range, and a probability vector of width `nsc`. -/
def wfEntryB (nsc : Nat) : Entry → Bool
  | Entry.loudE t d r => tRangeB t && f32ok d && f32ok r
  | Entry.sourceE t ps => tRangeB t && decide (ps.length = nsc) && ps.all f32ok
  | Entry.sharpE t v => tRangeB t && f32ok v
  | Entry.voltE t mv => tRangeB t && decide (mv < 2 ^ 16)
  | Entry.ntpE t => tRangeB t
  | Entry.rtcE t => tRangeB t
  | Entry.sleepE t secs => tRangeB t && decide (secs < 2 ^ 16)
  | Entry.nightlyE t r => tRangeB t && f32ok r

/-- Wire encoding of one entry: tag byte, 8-byte little-endian signed
timestamp, then the type-specific payload. -/
def encodeEntry : Entry → List Nat
  | Entry.loudE t d r => 0 :: (i64le t ++ (d ++ r))
  | Entry.sourceE t ps => 1 :: (i64le t ++ ps.flatten)
  | Entry.sharpE t v => 2 :: (i64le t ++ v)
  | Entry.voltE t mv => 100 :: (i64le t ++ natLE 2 mv)
  | Entry.ntpE t => 110 :: i64le t
  | Entry.rtcE t => 111 :: i64le t
  | Entry.sleepE t secs => 120 :: (i64le t ++ natLE 2 secs)
  | Entry.nightlyE t r => 121 :: (i64le t ++ r)

/-- Encoding of an entry sequence where every entry is preceded by the
two-byte marker. -/
def encodeMarked (es : List Entry) : List Nat :=
  (es.map (fun e => 255 :: 255 :: encodeEntry e)).flatten

/-- Encoding of an entry sequence with all markers removed. -/
def encodePlain (es : List Entry) : List Nat :=
  (es.map encodeEntry).flatten

/-- A well-formed header image for sensor name `name` and creation-timestamp
bytes `ts4`, declaring the class count 11. -/
def encodeHeader (ts4 name : List Nat) : List Nat :=
  MAGIC ++ ([48, 49] ++ (ts4 ++ (name.length :: (name ++ [11]))))

/-- Well-formedness of the header parameters. -/
def wfHeaderB (ts4 name : List Nat) : Bool :=
  decide (ts4.length = 4) && bytesOk ts4 && asciiOk name && decide (name.length ≤ 255)

/-- The record appended by a successfully framed entry: the effect of one loop
iteration on the output lists (the cursor field of the result is not
meaningful and is overridden by the caller). -/
def entryEffect (e : Entry) (s : DState) : DState :=
  match e with
  | Entry.loudE t d _ =>
    match splA (f32val (leVal d)) with
    | some spl => { s with loudness := s.loudness ++ [⟨t, f32val (leVal d), spl⟩] }
    | none => { s with diags := s.diags ++ [⟨s.loudness.length, 0, t, f32val (leVal d)⟩] }
  | Entry.sourceE t ps =>
    { s with source := s.source ++ [⟨t, ps.map (fun l => f32val (leVal l))⟩] }
  | Entry.sharpE t v => { s with sharpness := s.sharpness ++ [⟨t, f32val (leVal v)⟩] }
  | Entry.voltE t mv => { s with voltage := s.voltage ++ [⟨t, mv⟩] }
  | Entry.ntpE t => { s with event_log := s.event_log ++ [⟨t, "TIME_FROM_NTP", EValue.int 0⟩] }
  | Entry.rtcE t => { s with event_log := s.event_log ++ [⟨t, "TIME_FROM_RTC", EValue.int 0⟩] }
  | Entry.sleepE t secs => { s with event_log := s.event_log ++ [⟨t, "ENTER_SLEEP", EValue.int secs⟩] }
  | Entry.nightlyE t r => { s with event_log := s.event_log ++ [⟨t, "NIGHTLY_PD", EValue.flt (f32val (leVal r))⟩] }

/-- The observable output of the loop state: everything except the cursor. -/
structure Recs where
  loudness : List LoudRec
  sharpness : List SharpRec
  source : List SourceRec
  voltage : List VoltRec
  event_log : List EventRec
  diags : List Diag
  deriving DecidableEq

/-- Project the output lists out of a loop state. -/
def recsOf (s : DState) : Recs :=
  ⟨s.loudness, s.sharpness, s.source, s.voltage, s.event_log, s.diags⟩

/-! Basic lemmas about the read primitives. -/

theorem readRaw_at (data pre l rest : List Nat) (p n : Nat)
    (hd : data = pre ++ (l ++ rest)) (hp : p = pre.length) (hn : n = l.length) :
    readRaw data p n = l := by
  subst hd hp hn
  simp [readRaw, List.drop_left, List.take_left]

theorem readExact_ok (data : List Nat) (p n : Nat) (h : p + n ≤ data.length) :
    readExact data p n = Except.ok (readRaw data p n, p + n) := by
  simp [readExact, h]

theorem readExact_err (data : List Nat) (p n : Nat) (h : data.length < p + n) :
    readExact data p n = Except.error FormatError.underflow := by
  rw [readExact, if_neg (by omega)]

theorem readExact_at (data pre l rest : List Nat) (p n : Nat)
    (hd : data = pre ++ (l ++ rest)) (hp : p = pre.length) (hn : n = l.length) :
    readExact data p n = Except.ok (l, p + n) := by
  have hb : p + n ≤ data.length := by
    subst hd hp hn
    simp [List.length_append]
  rw [readExact_ok data p n hb, readRaw_at data pre l rest p n hd hp hn]

theorem readF32_at (data pre l rest : List Nat) (p : Nat)
    (hd : data = pre ++ (l ++ rest)) (hp : p = pre.length) (hn : l.length = 4) :
    readF32 data p = Except.ok (f32val (leVal l), p + 4) := by
  rw [readF32, readExact_at data pre l rest p 4 hd hp hn.symm]

theorem readF32_err (data : List Nat) (p : Nat) (h : data.length < p + 4) :
    readF32 data p = Except.error FormatError.underflow := by
  rw [readF32, readExact_err data p 4 h]

theorem readFloats_at (ps : List (List Nat)) (data pre rest : List Nat) (p : Nat)
    (hd : data = pre ++ (ps.flatten ++ rest)) (hp : p = pre.length)
    (h4 : ∀ l ∈ ps, l.length = 4) :
    readFloats data p ps.length =
      Except.ok (ps.map (fun l => f32val (leVal l)), p + ps.flatten.length) := by
  induction ps generalizing pre p with
  | nil => simp [readFloats, hp, hd]
  | cons l ps ih =>
    have hl : l.length = 4 := h4 l (List.mem_cons_self l ps)
    have hd2 : data = pre ++ (l ++ (ps.flatten ++ rest)) := by
      simp only [hd, List.flatten_cons, List.append_assoc]
    simp only [List.length_cons, readFloats,
      readF32_at data pre l (ps.flatten ++ rest) p hd2 hp hl]
    have ih2 := ih (pre ++ l) (p + l.length)
      (by simp only [hd, List.flatten_cons, List.append_assoc])
      (by simp [hp]) (fun x hx => h4 x (List.mem_cons_of_mem l hx))
    rw [hl] at ih2
    rw [ih2]
    simp only [List.flatten_cons, List.length_append, List.map_cons]
    congr 2
    omega

theorem readFloats_err (data : List Nat) :
    ∀ (k p : Nat), data.length < p + 4 * (k + 1) →
      readFloats data p (k + 1) = Except.error FormatError.underflow := by
  intro k
  induction k with
  | zero =>
    intro p h
    rw [readFloats, readF32_err data p (by omega)]
  | succ k ih =>
    intro p h
    by_cases hc : p + 4 ≤ data.length
    · have hf : readF32 data p = Except.ok (f32val (leVal (readRaw data p 4)), p + 4) := by
        rw [readF32, readExact_ok data p 4 hc]
      rw [readFloats]
      simp only [hf]
      rw [ih (p + 4) (by omega)]
    · rw [readFloats, readF32_err data p (by omega)]

theorem readFloats_ok_shape (data : List Nat) :
    ∀ (k p p2 : Nat) (vs : List F32),
      readFloats data p k = Except.ok (vs, p2) → vs.length = k := by
  intro k
  induction k with
  | zero =>
    intro p p2 vs h
    rw [readFloats] at h
    cases h
    rfl
  | succ k ih =>
    intro p p2 vs h
    rw [readFloats] at h
    cases hf : readF32 data p with
    | error e =>
      simp only [hf] at h
      exact absurd h (by simp)
    | ok vp =>
      obtain ⟨v, p3⟩ := vp
      simp only [hf] at h
      cases hr : readFloats data p3 k with
      | error e =>
        simp only [hr] at h
        exact absurd h (by simp)
      | ok vsp =>
        obtain ⟨ws, p4⟩ := vsp
        simp only [hr] at h
        injection h with hpair
        have h1 : v :: ws = vs := congrArg Prod.fst hpair
        rw [← h1]
        simp [ih p3 p4 ws hr]

/-! Lemmas about the little-endian encodings. -/

theorem natLE_length (k v : Nat) : (natLE k v).length = k := by
  induction k generalizing v with
  | zero => rfl
  | succ k ih => simp [natLE, ih]

theorem natLE_bytes (k v : Nat) : ∀ b ∈ natLE k v, b < 256 := by
  induction k generalizing v with
  | zero => simp [natLE]
  | succ k ih =>
    intro b hb
    rw [natLE] at hb
    rcases List.mem_cons.mp hb with h | h
    · rw [h]
      exact Nat.mod_lt _ (by omega)
    · exact ih (v / 256) b h

theorem leVal_natLE (k v : Nat) : leVal (natLE k v) = v % 2 ^ (8 * k) := by
  induction k generalizing v with
  | zero => simp [natLE, leVal, Nat.mod_one]
  | succ k ih =>
    rw [natLE, leVal, ih (v / 256)]
    have h2 : (2 : Nat) ^ (8 * (k + 1)) = 256 * 2 ^ (8 * k) := by ring
    rw [h2, Nat.mod_mul]

theorem i64le_length (t : Int) : (i64le t).length = 8 := natLE_length 8 _

theorem toSigned64_i64le (t : Int) (h : tRangeB t = true) :
    toSigned64 (leVal (i64le t)) = t := by
  have hr : -(2 ^ 63) ≤ t ∧ t < 2 ^ 63 := by
    simpa [tRangeB] using h
  have hm : (0 : Int) ≤ t % (2 ^ 64 : Int) := Int.emod_nonneg t (by norm_num)
  have hm2 : t % (2 ^ 64 : Int) < 2 ^ 64 := Int.emod_lt_of_pos t (by norm_num)
  rw [i64le, leVal_natLE]
  have hlt : (t % (2 ^ 64 : Int)).toNat < 2 ^ (8 * 8) := by
    omega
  rw [Nat.mod_eq_of_lt hlt]
  rw [toSigned64]
  have he : t % (2 ^ 64 : Int) = t ∨ t % (2 ^ 64 : Int) = t + 2 ^ 64 := by
    rcases le_or_lt 0 t with hp | hn
    · left
      exact Int.emod_eq_of_lt hp (by omega)
    · right
      have : (t + 2 ^ 64) % (2 ^ 64 : Int) = t % (2 ^ 64 : Int) := by
        omega
      rw [← this]
      exact Int.emod_eq_of_lt (by omega) (by omega)
  split
  · omega
  · omega

theorem leVal_natLE2 (v : Nat) (h : v < 2 ^ 16) : leVal (natLE 2 v) = v := by
  rw [leVal_natLE]
  exact Nat.mod_eq_of_lt (by omega)

/-! Lemmas about entry encodings. -/

theorem encodeEntry_length_ge (e : Entry) : 9 ≤ (encodeEntry e).length := by
  cases e <;> simp [encodeEntry, i64le_length]

theorem encodeEntry_ne_marker (e : Entry) (rest : List Nat)
    (h : (encodeEntry e ++ rest).take 2 = [255, 255]) : False := by
  cases e <;> simp [encodeEntry, List.take_cons] at h

/-! Lemmas about the marker probe. -/

theorem markerProbe_of_marker (data : List Nat) (pos : Nat)
    (h : readRaw data pos 2 = [255, 255]) : markerProbe data pos = pos + 2 := by
  have hlen : pos + 2 ≤ data.length := by
    have := congrArg List.length h
    simp [readRaw] at this
    omega
  simp [markerProbe, h]
  omega

theorem markerProbe_of_not (data : List Nat) (pos : Nat)
    (h : readRaw data pos 2 ≠ [255, 255]) (hb : pos + 2 ≤ data.length) :
    markerProbe data pos = pos := by
  simp [markerProbe, h]
  omega

theorem markerProbe_hit (data pre rest : List Nat) (p : Nat)
    (hd : data = pre ++ ([255, 255] ++ rest)) (hp : p = pre.length) :
    markerProbe data p = p + 2 := by
  exact markerProbe_of_marker data p (readRaw_at data pre [255, 255] rest p 2 hd hp rfl)

theorem markerProbe_miss (data pre rest : List Nat) (p : Nat)
    (hd : data = pre ++ rest) (hp : p = pre.length)
    (hm : rest.take 2 ≠ [255, 255]) (hlen : p + 2 ≤ data.length) :
    markerProbe data p = p := by
  have hr : readRaw data p 2 = rest.take 2 := by
    subst hd hp
    simp [readRaw, List.drop_left]
  exact markerProbe_of_not data p (by rw [hr]; exact hm) hlen

/-! Lemmas about the loop. -/

theorem loopAux_done (data : List Nat) (nsc : Nat) (s : DState)
    (h : ¬ s.pos < data.length) :
    ∀ fuel, loopAux data nsc fuel s = Except.ok s := by
  intro fuel
  cases fuel with
  | zero => rfl
  | succ fuel => simp [loopAux, h]

theorem loopAux_cont (data : List Nat) (nsc fuel : Nat) (s s2 : DState)
    (h : s.pos < data.length) (hs : step data nsc s = Except.ok s2) :
    loopAux data nsc (fuel + 1) s = loopAux data nsc fuel s2 := by
  simp [loopAux, h, hs]

theorem loopAux_err (data : List Nat) (nsc fuel : Nat) (s : DState) (e : FormatError)
    (h : s.pos < data.length) (hs : step data nsc s = Except.error e) :
    loopAux data nsc (fuel + 1) s = Except.error e := by
  simp [loopAux, h, hs]

/-! Decoding an encoded entry. -/

theorem leVal_single (b : Nat) : leVal [b] = b := by
  simp [leVal]

theorem stepBody_encoded (data pre rest : List Nat) (nsc : Nat) (e : Entry) (s : DState) (p : Nat)
    (hw : wfEntryB nsc e = true)
    (hd : data = pre ++ (encodeEntry e ++ rest)) (hp : p = pre.length) :
    stepBody data nsc p s = Except.ok { entryEffect e s with pos := p + (encodeEntry e).length } := by
  cases e with
  | loudE t d r =>
    have hwt : tRangeB t = true := by
      simp [wfEntryB, Bool.and_eq_true] at hw; tauto
    have hd4 : d.length = 4 := by
      simp [wfEntryB, f32ok, Bool.and_eq_true] at hw; tauto
    have hr4 : r.length = 4 := by
      simp [wfEntryB, f32ok, Bool.and_eq_true] at hw; tauto
    have h1 : readExact data p 1 = Except.ok ([0], p + 1) :=
      readExact_at data pre [0] (i64le t ++ (d ++ (r ++ rest))) p 1
        (by simp [hd, encodeEntry, List.append_assoc]) hp rfl
    have h2 : readExact data (p + 1) 8 = Except.ok (i64le t, p + 9) := by
      have := readExact_at data (pre ++ [0]) (i64le t) (d ++ (r ++ rest)) (p + 1) 8
        (by simp [hd, encodeEntry, List.append_assoc]) (by simp [hp]) (i64le_length t).symm
      rw [show p + 1 + 8 = p + 9 from by omega] at this
      exact this
    have h3 : readF32 data (p + 9) = Except.ok (f32val (leVal d), p + 13) := by
      have := readF32_at data ((pre ++ [0]) ++ i64le t) d (r ++ rest) (p + 9)
        (by simp [hd, encodeEntry, List.append_assoc]) (by simp [hp, i64le_length]) hd4
      rw [show p + 9 + 4 = p + 13 from by omega] at this
      exact this
    have h4 : readF32 data (p + 13) = Except.ok (f32val (leVal r), p + 17) := by
      have := readF32_at data (((pre ++ [0]) ++ i64le t) ++ d) r rest (p + 13)
        (by simp [hd, encodeEntry, List.append_assoc]) (by simp [hp, i64le_length, hd4]) hr4
      rw [show p + 13 + 4 = p + 17 from by omega] at this
      exact this
    rw [stepBody]
    simp only [h1, h2, leVal_single, toSigned64_i64le t hwt, h3, h4]
    norm_num
    cases hs : splA (f32val (leVal d)) with
    | none =>
      simp [entryEffect, hs, encodeEntry, i64le_length, hd4, hr4]
    | some spl =>
      simp [entryEffect, hs, encodeEntry, i64le_length, hd4, hr4]
  | sourceE t ps =>
    have hwt : tRangeB t = true := by
      simp [wfEntryB, Bool.and_eq_true] at hw; tauto
    have hlen : ps.length = nsc := by
      simp [wfEntryB, Bool.and_eq_true] at hw; tauto
    have h4s : ∀ l ∈ ps, l.length = 4 := by
      intro l hl
      simp [wfEntryB, Bool.and_eq_true, List.all_eq_true] at hw
      have := hw.2 l hl
      simp [f32ok, Bool.and_eq_true] at this
      exact this.1
    have h1 : readExact data p 1 = Except.ok ([1], p + 1) :=
      readExact_at data pre [1] (i64le t ++ (ps.flatten ++ rest)) p 1
        (by simp [hd, encodeEntry, List.append_assoc]) hp rfl
    have h2 : readExact data (p + 1) 8 = Except.ok (i64le t, p + 9) := by
      have := readExact_at data (pre ++ [1]) (i64le t) (ps.flatten ++ rest) (p + 1) 8
        (by simp [hd, encodeEntry, List.append_assoc]) (by simp [hp]) (i64le_length t).symm
      rw [show p + 1 + 8 = p + 9 from by omega] at this
      exact this
    have h3 : readFloats data (p + 9) nsc =
        Except.ok (ps.map (fun l => f32val (leVal l)), p + 9 + ps.flatten.length) := by
      rw [← hlen]
      exact readFloats_at ps data ((pre ++ [1]) ++ i64le t) rest (p + 9)
        (by simp [hd, encodeEntry, List.append_assoc]) (by simp [hp, i64le_length]) h4s
    rw [stepBody]
    simp only [h1, h2, leVal_single, toSigned64_i64le t hwt, h3]
    norm_num [entryEffect, encodeEntry, i64le_length]
    omega
  | sharpE t v =>
    have hwt : tRangeB t = true := by
      simp [wfEntryB, Bool.and_eq_true] at hw; tauto
    have hv4 : v.length = 4 := by
      simp [wfEntryB, f32ok, Bool.and_eq_true] at hw; tauto
    have h1 : readExact data p 1 = Except.ok ([2], p + 1) :=
      readExact_at data pre [2] (i64le t ++ (v ++ rest)) p 1
        (by simp [hd, encodeEntry, List.append_assoc]) hp rfl
    have h2 : readExact data (p + 1) 8 = Except.ok (i64le t, p + 9) := by
      have := readExact_at data (pre ++ [2]) (i64le t) (v ++ rest) (p + 1) 8
        (by simp [hd, encodeEntry, List.append_assoc]) (by simp [hp]) (i64le_length t).symm
      rw [show p + 1 + 8 = p + 9 from by omega] at this
      exact this
    have h3 : readF32 data (p + 9) = Except.ok (f32val (leVal v), p + 13) := by
      have := readF32_at data ((pre ++ [2]) ++ i64le t) v rest (p + 9)
        (by simp [hd, encodeEntry, List.append_assoc]) (by simp [hp, i64le_length]) hv4
      rw [show p + 9 + 4 = p + 13 from by omega] at this
      exact this
    rw [stepBody]
    simp only [h1, h2, leVal_single, toSigned64_i64le t hwt, h3]
    norm_num [entryEffect, encodeEntry, i64le_length, hv4]
  | voltE t mv =>
    have hwt : tRangeB t = true := by
      simp [wfEntryB, Bool.and_eq_true] at hw; tauto
    have hmv : mv < 2 ^ 16 := by
      simp [wfEntryB, Bool.and_eq_true] at hw; tauto
    have h1 : readExact data p 1 = Except.ok ([100], p + 1) :=
      readExact_at data pre [100] (i64le t ++ (natLE 2 mv ++ rest)) p 1
        (by simp [hd, encodeEntry, List.append_assoc]) hp rfl
    have h2 : readExact data (p + 1) 8 = Except.ok (i64le t, p + 9) := by
      have := readExact_at data (pre ++ [100]) (i64le t) (natLE 2 mv ++ rest) (p + 1) 8
        (by simp [hd, encodeEntry, List.append_assoc]) (by simp [hp]) (i64le_length t).symm
      rw [show p + 1 + 8 = p + 9 from by omega] at this
      exact this
    have h3 : readExact data (p + 9) 2 = Except.ok (natLE 2 mv, p + 11) := by
      have := readExact_at data ((pre ++ [100]) ++ i64le t) (natLE 2 mv) rest (p + 9) 2
        (by simp [hd, encodeEntry, List.append_assoc]) (by simp [hp, i64le_length])
        (natLE_length 2 mv).symm
      rw [show p + 9 + 2 = p + 11 from by omega] at this
      exact this
    rw [stepBody]
    simp only [h1, h2, leVal_single, toSigned64_i64le t hwt, h3]
    norm_num [entryEffect, encodeEntry, i64le_length, natLE_length, leVal_natLE2 mv hmv]
  | ntpE t =>
    have hwt : tRangeB t = true := by
      simpa [wfEntryB] using hw
    have h1 : readExact data p 1 = Except.ok ([110], p + 1) :=
      readExact_at data pre [110] (i64le t ++ rest) p 1
        (by simp [hd, encodeEntry, List.append_assoc]) hp rfl
    have h2 : readExact data (p + 1) 8 = Except.ok (i64le t, p + 9) := by
      have := readExact_at data (pre ++ [110]) (i64le t) rest (p + 1) 8
        (by simp [hd, encodeEntry, List.append_assoc]) (by simp [hp]) (i64le_length t).symm
      rw [show p + 1 + 8 = p + 9 from by omega] at this
      exact this
    rw [stepBody]
    simp only [h1, h2, leVal_single, toSigned64_i64le t hwt]
    norm_num [entryEffect, encodeEntry, i64le_length]
  | rtcE t =>
    have hwt : tRangeB t = true := by
      simpa [wfEntryB] using hw
    have h1 : readExact data p 1 = Except.ok ([111], p + 1) :=
      readExact_at data pre [111] (i64le t ++ rest) p 1
        (by simp [hd, encodeEntry, List.append_assoc]) hp rfl
    have h2 : readExact data (p + 1) 8 = Except.ok (i64le t, p + 9) := by
      have := readExact_at data (pre ++ [111]) (i64le t) rest (p + 1) 8
        (by simp [hd, encodeEntry, List.append_assoc]) (by simp [hp]) (i64le_length t).symm
      rw [show p + 1 + 8 = p + 9 from by omega] at this
      exact this
    rw [stepBody]
    simp only [h1, h2, leVal_single, toSigned64_i64le t hwt]
    norm_num [entryEffect, encodeEntry, i64le_length]
  | sleepE t secs =>
    have hwt : tRangeB t = true := by
      simp [wfEntryB, Bool.and_eq_true] at hw; tauto
    have hsv : secs < 2 ^ 16 := by
      simp [wfEntryB, Bool.and_eq_true] at hw; tauto
    have h1 : readExact data p 1 = Except.ok ([120], p + 1) :=
      readExact_at data pre [120] (i64le t ++ (natLE 2 secs ++ rest)) p 1
        (by simp [hd, encodeEntry, List.append_assoc]) hp rfl
    have h2 : readExact data (p + 1) 8 = Except.ok (i64le t, p + 9) := by
      have := readExact_at data (pre ++ [120]) (i64le t) (natLE 2 secs ++ rest) (p + 1) 8
        (by simp [hd, encodeEntry, List.append_assoc]) (by simp [hp]) (i64le_length t).symm
      rw [show p + 1 + 8 = p + 9 from by omega] at this
      exact this
    have h3 : readExact data (p + 9) 2 = Except.ok (natLE 2 secs, p + 11) := by
      have := readExact_at data ((pre ++ [120]) ++ i64le t) (natLE 2 secs) rest (p + 9) 2
        (by simp [hd, encodeEntry, List.append_assoc]) (by simp [hp, i64le_length])
        (natLE_length 2 secs).symm
      rw [show p + 9 + 2 = p + 11 from by omega] at this
      exact this
    rw [stepBody]
    simp only [h1, h2, leVal_single, toSigned64_i64le t hwt, h3]
    norm_num [entryEffect, encodeEntry, i64le_length, natLE_length, leVal_natLE2 secs hsv]
  | nightlyE t r =>
    have hwt : tRangeB t = true := by
      simp [wfEntryB, Bool.and_eq_true] at hw; tauto
    have hr4 : r.length = 4 := by
      simp [wfEntryB, f32ok, Bool.and_eq_true] at hw; tauto
    have h1 : readExact data p 1 = Except.ok ([121], p + 1) :=
      readExact_at data pre [121] (i64le t ++ (r ++ rest)) p 1
        (by simp [hd, encodeEntry, List.append_assoc]) hp rfl
    have h2 : readExact data (p + 1) 8 = Except.ok (i64le t, p + 9) := by
      have := readExact_at data (pre ++ [121]) (i64le t) (r ++ rest) (p + 1) 8
        (by simp [hd, encodeEntry, List.append_assoc]) (by simp [hp]) (i64le_length t).symm
      rw [show p + 1 + 8 = p + 9 from by omega] at this
      exact this
    have h3 : readF32 data (p + 9) = Except.ok (f32val (leVal r), p + 13) := by
      have := readF32_at data ((pre ++ [121]) ++ i64le t) r rest (p + 9)
        (by simp [hd, encodeEntry, List.append_assoc]) (by simp [hp, i64le_length]) hr4
      rw [show p + 9 + 4 = p + 13 from by omega] at this
      exact this
    rw [stepBody]
    simp only [h1, h2, leVal_single, toSigned64_i64le t hwt, h3]
    norm_num [entryEffect, encodeEntry, i64le_length, hr4]

/-! Simulation between marked and unmarked streams. -/

theorem encodeMarked_nil : encodeMarked [] = [] := rfl

theorem encodePlain_nil : encodePlain [] = [] := rfl

theorem encodeMarked_cons (e : Entry) (es : List Entry) :
    encodeMarked (e :: es) = (255 :: 255 :: encodeEntry e) ++ encodeMarked es := by
  simp [encodeMarked]

theorem encodePlain_cons (e : Entry) (es : List Entry) :
    encodePlain (e :: es) = encodeEntry e ++ encodePlain es := by
  simp [encodePlain]

theorem recsOf_setPos (s : DState) (n : Nat) : recsOf { s with pos := n } = recsOf s := rfl

theorem recsOf_entryEffect (e : Entry) (a b : DState) (h : recsOf a = recsOf b) :
    recsOf (entryEffect e a) = recsOf (entryEffect e b) := by
  simp only [recsOf, Recs.mk.injEq] at h
  obtain ⟨h1, h2, h3, h4, h5, h6⟩ := h
  cases e with
  | loudE t d r =>
    cases hs : splA (f32val (leVal d)) <;>
      simp [entryEffect, recsOf, hs, h1, h2, h3, h4, h5, h6]
  | sourceE t ps => simp [entryEffect, recsOf, h1, h2, h3, h4, h5, h6]
  | sharpE t v => simp [entryEffect, recsOf, h1, h2, h3, h4, h5, h6]
  | voltE t mv => simp [entryEffect, recsOf, h1, h2, h3, h4, h5, h6]
  | ntpE t => simp [entryEffect, recsOf, h1, h2, h3, h4, h5, h6]
  | rtcE t => simp [entryEffect, recsOf, h1, h2, h3, h4, h5, h6]
  | sleepE t secs => simp [entryEffect, recsOf, h1, h2, h3, h4, h5, h6]
  | nightlyE t r => simp [entryEffect, recsOf, h1, h2, h3, h4, h5, h6]

theorem step_marked (data pre rest : List Nat) (nsc : Nat) (e : Entry) (s : DState)
    (hw : wfEntryB nsc e = true)
    (hd : data = pre ++ ((255 :: 255 :: encodeEntry e) ++ rest))
    (hp : s.pos = pre.length) :
    step data nsc s =
      Except.ok { entryEffect e s with pos := s.pos + 2 + (encodeEntry e).length } := by
  have hprobe : markerProbe data s.pos = s.pos + 2 :=
    markerProbe_hit data pre (encodeEntry e ++ rest) s.pos (by simp [hd]) hp
  rw [step, hprobe]
  have := stepBody_encoded data (pre ++ [255, 255]) rest nsc e s (s.pos + 2) hw
    (by simp [hd, List.append_assoc]) (by simp [hp])
  rw [this]

theorem step_plain (data pre rest : List Nat) (nsc : Nat) (e : Entry) (s : DState)
    (hw : wfEntryB nsc e = true)
    (hd : data = pre ++ (encodeEntry e ++ rest))
    (hp : s.pos = pre.length) :
    step data nsc s =
      Except.ok { entryEffect e s with pos := s.pos + (encodeEntry e).length } := by
  have hb : s.pos + 2 ≤ data.length := by
    have := encodeEntry_length_ge e
    simp [hd, List.length_append, hp]
    omega
  have hprobe : markerProbe data s.pos = s.pos :=
    markerProbe_miss data pre (encodeEntry e ++ rest) s.pos hd hp
      (fun hc => encodeEntry_ne_marker e rest hc) hb
  rw [step, hprobe]
  exact stepBody_encoded data pre rest nsc e s s.pos hw hd hp

theorem loopAux_sim (nsc : Nat) :
    ∀ (es : List Entry) (dataA dataB preA preB : List Nat) (sA sB : DState) (fA fB : Nat),
      (∀ e ∈ es, wfEntryB nsc e = true) →
      dataA = preA ++ encodeMarked es → dataB = preB ++ encodePlain es →
      sA.pos = preA.length → sB.pos = preB.length →
      recsOf sA = recsOf sB →
      es.length ≤ fA → es.length ≤ fB →
      (loopAux dataA nsc fA sA).map recsOf = (loopAux dataB nsc fB sB).map recsOf := by
  intro es
  induction es with
  | nil =>
    intro dataA dataB preA preB sA sB fA fB hwf hdA hdB hpA hpB hrec hfA hfB
    have hA : ¬ sA.pos < dataA.length := by
      rw [hdA, encodeMarked_nil, List.append_nil, hpA]
      omega
    have hB : ¬ sB.pos < dataB.length := by
      rw [hdB, encodePlain_nil, List.append_nil, hpB]
      omega
    rw [loopAux_done dataA nsc sA hA fA, loopAux_done dataB nsc sB hB fB]
    simp [Except.map, hrec]
  | cons e es ih =>
    intro dataA dataB preA preB sA sB fA fB hwf hdA hdB hpA hpB hrec hfA hfB
    have hwe : wfEntryB nsc e = true := hwf e (List.mem_cons_self e es)
    have hwes : ∀ x ∈ es, wfEntryB nsc x = true :=
      fun x hx => hwf x (List.mem_cons_of_mem e hx)
    have hge := encodeEntry_length_ge e
    obtain ⟨fA2, rfl⟩ : ∃ fA2, fA = fA2 + 1 := by
      cases fA with
      | zero => simp at hfA
      | succ fA2 => exact ⟨fA2, rfl⟩
    obtain ⟨fB2, rfl⟩ : ∃ fB2, fB = fB2 + 1 := by
      cases fB with
      | zero => simp at hfB
      | succ fB2 => exact ⟨fB2, rfl⟩
    have hdA2 : dataA = preA ++ ((255 :: 255 :: encodeEntry e) ++ encodeMarked es) := by
      rw [hdA, encodeMarked_cons]
    have hdB2 : dataB = preB ++ (encodeEntry e ++ encodePlain es) := by
      rw [hdB, encodePlain_cons]
    have hltA : sA.pos < dataA.length := by
      simp [hdA2, List.length_append, hpA]
    have hltB : sB.pos < dataB.length := by
      simp [hdB2, List.length_append, hpB]
      exact Or.inl (by omega)
    have hstepA := step_marked dataA preA (encodeMarked es) nsc e sA hwe hdA2 hpA
    have hstepB := step_plain dataB preB (encodePlain es) nsc e sB hwe hdB2 hpB
    rw [loopAux_cont dataA nsc fA2 sA _ hltA hstepA,
        loopAux_cont dataB nsc fB2 sB _ hltB hstepB]
    apply ih dataA dataB (preA ++ (255 :: 255 :: encodeEntry e)) (preB ++ encodeEntry e)
    · exact hwes
    · rw [hdA2, List.append_assoc]
    · rw [hdB2, List.append_assoc]
    · simp only [List.length_append, List.length_cons, hpA]
      omega
    · simp only [List.length_append, List.length_cons, hpB]
    · rw [recsOf_setPos, recsOf_setPos]
      exact recsOf_entryEffect e sA sB hrec
    · simp only [List.length_cons] at hfA
      omega
    · simp only [List.length_cons] at hfB
      omega

/-! Decoding an encoded header. -/

theorem encodeHeader_length (ts4 name : List Nat) (hts : ts4.length = 4) :
    (encodeHeader ts4 name).length = 28 + name.length := by
  simp [encodeHeader, MAGIC, hts]
  omega

theorem read_header_encoded (ts4 name body : List Nat) (hts : ts4.length = 4)
    (hascii : asciiOk name = true) :
    read_header (encodeHeader ts4 name ++ body) =
      Except.ok (⟨[48, 49], leVal ts4, name, 11⟩, 28 + name.length) := by
  set data := encodeHeader ts4 name ++ body with hdata
  have hlen : data.length = 28 + name.length + body.length := by
    simp [hdata, encodeHeader_length ts4 name hts]
  have hmagic : readRaw data 0 20 = MAGIC :=
    readRaw_at data [] MAGIC ([48, 49] ++ (ts4 ++ (name.length :: (name ++ ([11] ++ body))))) 0 20
      (by simp [hdata, encodeHeader, List.append_assoc]) rfl (by simp [MAGIC])
  have hvb : readRaw data 20 2 = [48, 49] :=
    readRaw_at data MAGIC [48, 49] (ts4 ++ (name.length :: (name ++ ([11] ++ body)))) 20 2
      (by simp [hdata, encodeHeader, List.append_assoc]) (by simp [MAGIC]) rfl
  have hts4 : readExact data 22 4 = Except.ok (ts4, 26) := by
    have := readExact_at data (MAGIC ++ [48, 49]) ts4 (name.length :: (name ++ ([11] ++ body))) 22 4
      (by simp [hdata, encodeHeader, List.append_assoc]) (by simp [MAGIC]) hts.symm
    simpa using this
  have hlb : readExact data 26 1 = Except.ok ([name.length], 27) := by
    have := readExact_at data (MAGIC ++ [48, 49] ++ ts4) [name.length] (name ++ ([11] ++ body)) 26 1
      (by simp [hdata, encodeHeader, List.append_assoc]) (by simp [MAGIC, hts]) rfl
    simpa using this
  have hname : readRaw data 27 name.length = name :=
    readRaw_at data (MAGIC ++ [48, 49] ++ ts4 ++ [name.length]) name ([11] ++ body) 27 name.length
      (by simp [hdata, encodeHeader, List.append_assoc]) (by simp [MAGIC, hts]) rfl
  have hcb : readExact data (27 + name.length) 1 = Except.ok ([11], 27 + name.length + 1) :=
    readExact_at data (MAGIC ++ [48, 49] ++ ts4 ++ [name.length] ++ name) [11] body
      (27 + name.length) 1
      (by simp [hdata, encodeHeader, List.append_assoc]) (by simp [MAGIC, hts]; omega) rfl
  have hm1 : min 20 (28 + name.length + body.length) = 20 := by omega
  have hm2 : min 22 (28 + name.length + body.length) = 22 := by omega
  have hm5 : min (27 + name.length) (28 + name.length + body.length) = 27 + name.length := by
    omega
  rw [read_header]
  simp only [hmagic, hlen, hm1, if_pos rfl]
  norm_num [hm2, hvb, hts4, hlb, leVal_single, hname, hascii, hm5, hcb, labels]
  simp [asciiOk]
  omega

/-! Stream-level lemmas and the claims. -/

theorem encodeMarked_length_ge (es : List Entry) : es.length ≤ (encodeMarked es).length := by
  induction es with
  | nil => simp [encodeMarked_nil]
  | cons e es ih =>
    rw [encodeMarked_cons]
    have := encodeEntry_length_ge e
    simp [List.length_append]
    omega

theorem encodePlain_length_ge (es : List Entry) : es.length ≤ (encodePlain es).length := by
  induction es with
  | nil => simp [encodePlain_nil]
  | cons e es ih =>
    rw [encodePlain_cons]
    have := encodeEntry_length_ge e
    simp [List.length_append]
    omega

/-- C1: for every valid header followed by any well-formed entry sequence,
the stream in which every entry is preceded by the two-byte marker `0xFF 0xFF`
decodes to exactly the same result (in particular the same five record
sequences) as the same stream with all markers removed. -/
theorem c1_marker_tolerance (ts4 name : List Nat) (es : List Entry)
    (hh : wfHeaderB ts4 name = true) (hes : ∀ e ∈ es, wfEntryB 11 e = true) :
    read_sscm (encodeHeader ts4 name ++ encodeMarked es) =
      read_sscm (encodeHeader ts4 name ++ encodePlain es) := by
  have hts : ts4.length = 4 := by
    simp [wfHeaderB, Bool.and_eq_true] at hh
    tauto
  have hascii : asciiOk name = true := by
    simp [wfHeaderB, Bool.and_eq_true] at hh
    tauto
  have hhA := read_header_encoded ts4 name (encodeMarked es) hts hascii
  have hhB := read_header_encoded ts4 name (encodePlain es) hts hascii
  have hsim := loopAux_sim 11 es
    (encodeHeader ts4 name ++ encodeMarked es) (encodeHeader ts4 name ++ encodePlain es)
    (encodeHeader ts4 name) (encodeHeader ts4 name)
    ⟨28 + name.length, [], [], [], [], [], []⟩ ⟨28 + name.length, [], [], [], [], [], []⟩
    ((encodeHeader ts4 name ++ encodeMarked es).length)
    ((encodeHeader ts4 name ++ encodePlain es).length)
    hes rfl rfl
    (by simp [encodeHeader_length ts4 name hts])
    (by simp [encodeHeader_length ts4 name hts])
    rfl
    (by
      have := encodeMarked_length_ge es
      simp [List.length_append]
      omega)
    (by
      have := encodePlain_length_ge es
      simp [List.length_append]
      omega)
  simp only [read_sscm, hhA, hhB]
  revert hsim
  cases hA : loopAux (encodeHeader ts4 name ++ encodeMarked es) 11
      (encodeHeader ts4 name ++ encodeMarked es).length ⟨28 + name.length, [], [], [], [], [], []⟩ with
  | error e =>
    cases hB : loopAux (encodeHeader ts4 name ++ encodePlain es) 11
        (encodeHeader ts4 name ++ encodePlain es).length ⟨28 + name.length, [], [], [], [], [], []⟩ with
    | error e2 =>
      intro hsim
      simp [Except.map] at hsim
      simp [hsim]
    | ok s2 =>
      intro hsim
      simp [Except.map] at hsim
  | ok s1 =>
    cases hB : loopAux (encodeHeader ts4 name ++ encodePlain es) 11
        (encodeHeader ts4 name ++ encodePlain es).length ⟨28 + name.length, [], [], [], [], [], []⟩ with
    | error e2 =>
      intro hsim
      simp [Except.map] at hsim
    | ok s2 =>
      intro hsim
      simp only [Except.map, Except.ok.injEq] at hsim
      simp only [recsOf, Recs.mk.injEq] at hsim
      obtain ⟨h1, h2, h3, h4, h5, h6⟩ := hsim
      simp [h1, h2, h3, h4, h5, h6]

/-- Witness for C1 at a concrete header and a one-entry sequence. -/
theorem c1_marker_tolerance_witness :
    wfHeaderB [0, 0, 0, 0] [110, 111, 100, 101] = true ∧
    (∀ e ∈ [Entry.ntpE 0], wfEntryB 11 e = true) ∧
    read_sscm (encodeHeader [0, 0, 0, 0] [110, 111, 100, 101] ++ encodeMarked [Entry.ntpE 0]) =
      read_sscm (encodeHeader [0, 0, 0, 0] [110, 111, 100, 101] ++ encodePlain [Entry.ntpE 0]) :=
  ⟨by decide, by decide, c1_marker_tolerance _ _ _ (by decide) (by decide)⟩

/-! Header characterization lemmas. -/

theorem read_header_count (ts4 name body : List Nat) (c : Nat) (hts : ts4.length = 4)
    (hascii : asciiOk name = true) :
    read_header (MAGIC ++ ([48, 49] ++ (ts4 ++ (name.length :: (name ++ (c :: body)))))) =
      (if c = 11 then Except.ok (⟨[48, 49], leVal ts4, name, c⟩, 28 + name.length)
       else Except.error (FormatError.labelCountMismatch c)) := by
  set data := MAGIC ++ ([48, 49] ++ (ts4 ++ (name.length :: (name ++ (c :: body))))) with hdata
  have hlen : data.length = 28 + name.length + body.length := by
    simp [hdata, MAGIC, hts]
    omega
  have hmagic : readRaw data 0 20 = MAGIC :=
    readRaw_at data [] MAGIC ([48, 49] ++ (ts4 ++ (name.length :: (name ++ (c :: body))))) 0 20
      (by simp [hdata]) rfl (by simp [MAGIC])
  have hvb : readRaw data 20 2 = [48, 49] :=
    readRaw_at data MAGIC [48, 49] (ts4 ++ (name.length :: (name ++ (c :: body)))) 20 2
      (by simp [hdata, List.append_assoc]) (by simp [MAGIC]) rfl
  have hts4 : readExact data 22 4 = Except.ok (ts4, 26) := by
    have := readExact_at data (MAGIC ++ [48, 49]) ts4 (name.length :: (name ++ (c :: body))) 22 4
      (by simp [hdata, List.append_assoc]) (by simp [MAGIC]) hts.symm
    simpa using this
  have hlb : readExact data 26 1 = Except.ok ([name.length], 27) := by
    have := readExact_at data (MAGIC ++ [48, 49] ++ ts4) [name.length] (name ++ (c :: body)) 26 1
      (by simp [hdata, List.append_assoc]) (by simp [MAGIC, hts]) rfl
    simpa using this
  have hname : readRaw data 27 name.length = name :=
    readRaw_at data (MAGIC ++ [48, 49] ++ ts4 ++ [name.length]) name (c :: body) 27 name.length
      (by simp [hdata, List.append_assoc]) (by simp [MAGIC, hts]) rfl
  have hcb : readExact data (27 + name.length) 1 = Except.ok ([c], 27 + name.length + 1) :=
    readExact_at data (MAGIC ++ [48, 49] ++ ts4 ++ [name.length] ++ name) [c] body
      (27 + name.length) 1
      (by simp [hdata, List.append_assoc]) (by simp [MAGIC, hts]; omega) rfl
  have hm1 : min 20 (28 + name.length + body.length) = 20 := by omega
  have hm2 : min 22 (28 + name.length + body.length) = 22 := by omega
  have hm5 : min (27 + name.length) (28 + name.length + body.length) = 27 + name.length := by
    omega
  rw [read_header]
  simp only [hmagic, hlen, hm1, if_pos rfl]
  norm_num [hm2, hvb, hts4, hlb, leVal_single, hname, hascii, hm5, hcb, labels]
  by_cases hc : c = 11
  · simp [hc, asciiOk]
    omega
  · simp [hc, asciiOk]

theorem read_header_ok_count (data : List Nat) (h : Header) (p : Nat)
    (hok : read_header data = Except.ok (h, p)) : h.num_source_classes = 11 := by
  rw [read_header] at hok
  split at hok
  case isFalse => exact Except.noConfusion hok
  simp only [] at hok
  repeat' split at hok
  all_goals try exact Except.noConfusion hok
  rename_i hn
  rw [Except.ok.injEq, Prod.mk.injEq] at hok
  rw [← hok.1]
  simpa [labels] using hn

/-- C2: at the top of every loop iteration the decoder performs one two-byte
lookahead: when the two bytes at the cursor are `0xFF 0xFF` it continues
decoding the entry two bytes further on, and otherwise it continues decoding
at the unmoved cursor, re-reading those same two bytes as the entry fields; a
missing marker by itself is never an error and the probe inspects no byte
beyond the two at the cursor. -/
theorem c2_marker_lookahead (data : List Nat) (nsc : Nat) (s : DState)
    (hb : s.pos + 2 ≤ data.length) :
    (readRaw data s.pos 2 = [255, 255] →
      step data nsc s = stepBody data nsc (s.pos + 2) s) ∧
    (readRaw data s.pos 2 ≠ [255, 255] →
      step data nsc s = stepBody data nsc s.pos s) := by
  constructor
  · intro h
    rw [step, markerProbe_of_marker data s.pos h]
  · intro h
    rw [step, markerProbe_of_not data s.pos h hb]

/-- Witness for C2 at a concrete marker-led stream. -/
theorem c2_marker_lookahead_witness :
    (0 : Nat) + 2 ≤ ([255, 255, 110, 5, 0, 0, 0, 0, 0, 0, 0] : List Nat).length ∧
    step [255, 255, 110, 5, 0, 0, 0, 0, 0, 0, 0] 11 ⟨0, [], [], [], [], [], []⟩ =
      stepBody [255, 255, 110, 5, 0, 0, 0, 0, 0, 0, 0] 11 (0 + 2) ⟨0, [], [], [], [], [], []⟩ :=
  ⟨by decide,
   (c2_marker_lookahead [255, 255, 110, 5, 0, 0, 0, 0, 0, 0, 0] 11
      ⟨0, [], [], [], [], [], []⟩ (by decide)).1 (by decide)⟩

/-- C3: an entry whose type tag is outside the recognised set fails with
`unknownEntryType` carrying the tag and that entry decoded `time_ms`
timestamp, and any error raised by one iteration aborts the whole loop — no
recovery or skip-and-continue exists. -/
theorem c3_unknown_entry_type :
    (∀ (data : List Nat) (nsc : Nat) (s : DState) (p ty : Nat),
      p = markerProbe data s.pos →
      readRaw data p 1 = [ty] →
      p + 9 ≤ data.length →
      ty ∉ validTags →
      step data nsc s =
        Except.error (FormatError.unknownEntryType ty
          (toSigned64 (leVal (readRaw data (p + 1) 8))))) ∧
    (∀ (data : List Nat) (nsc fuel : Nat) (s : DState) (e : FormatError),
      s.pos < data.length → step data nsc s = Except.error e →
      loopAux data nsc (fuel + 1) s = Except.error e) := by
  constructor
  · intro data nsc s p ty hp hread hbound hty
    simp [validTags] at hty
    obtain ⟨ht0, ht1, ht2, ht100, ht110, ht111, ht120, ht121⟩ := hty
    have h1 : readExact data p 1 = Except.ok ([ty], p + 1) := by
      rw [readExact_ok data p 1 (by omega), hread]
    have h2 : readExact data (p + 1) 8 = Except.ok (readRaw data (p + 1) 8, p + 9) := by
      have := readExact_ok data (p + 1) 8 (by omega)
      rw [show p + 1 + 8 = p + 9 from by omega] at this
      exact this
    rw [step, ← hp, stepBody]
    simp only [h1, h2, leVal_single]
    simp [ht0, ht1, ht2, ht100, ht110, ht111, ht120, ht121]
  · exact fun data nsc fuel s e h hs => loopAux_err data nsc fuel s e h hs

/-- Witness for C3: tag 200 with timestamp 1000. -/
theorem c3_unknown_entry_type_witness :
    step [200, 232, 3, 0, 0, 0, 0, 0, 0] 11 ⟨0, [], [], [], [], [], []⟩ =
      Except.error (FormatError.unknownEntryType 200 1000) := by
  have h := (c3_unknown_entry_type).1 [200, 232, 3, 0, 0, 0, 0, 0, 0] 11
    ⟨0, [], [], [], [], [], []⟩ 0 200 (by decide) (by decide) (by decide) (by decide)
  rw [h]
  decide

/-- C5: whenever the header decoder returns, the returned
`num_source_classes` equals 11, the size of the fixed label list; a header
image that is well-formed up to the count byte but declares a count other
than 11 fails with `labelCountMismatch`. -/
theorem c5_label_count :
    (∀ (data : List Nat) (h : Header) (p : Nat),
      read_header data = Except.ok (h, p) → h.num_source_classes = 11) ∧
    (∀ (ts4 name body : List Nat) (c : Nat),
      ts4.length = 4 → asciiOk name = true → c ≠ 11 →
      read_header (MAGIC ++ ([48, 49] ++ (ts4 ++ (name.length :: (name ++ (c :: body)))))) =
        Except.error (FormatError.labelCountMismatch c)) := by
  constructor
  · exact read_header_ok_count
  · intro ts4 name body c hts hascii hc
    rw [read_header_count ts4 name body c hts hascii, if_neg hc]

/-- Witness for C5: a well-formed header returns count 11, and the same
header with count byte 12 fails with `labelCountMismatch 12`. -/
theorem c5_label_count_witness :
    (⟨[48, 49], 0, [], 11⟩ : Header).num_source_classes = 11 ∧
    read_header (MAGIC ++ ([48, 49] ++ ([0, 0, 0, 0] ++ (0 :: ([] ++ (12 :: [])))))) =
      Except.error (FormatError.labelCountMismatch 12) :=
  ⟨(c5_label_count).1 (MAGIC ++ ([48, 49] ++ ([0, 0, 0, 0] ++ (0 :: ([] ++ (11 :: []))))))
      ⟨[48, 49], 0, [], 11⟩ 28 (by decide),
   (c5_label_count).2 [0, 0, 0, 0] [] [] 12 (by decide) (by decide) (by decide)⟩

/-- C7: on a valid header image the header decoder consumes exactly
`20 + 2 + 4 + 1 + sensor_name_len + 1` bytes and returns the two version
bytes, the little-endian 32-bit creation timestamp, the sensor name bytes and
the class count 11; being a pure function of the source prefix, its only
effect is the returned cursor. -/
theorem c7_header_contract (ts4 name rest : List Nat)
    (hts : ts4.length = 4) (hbytes : bytesOk ts4 = true)
    (hascii : asciiOk name = true) (hlen : name.length ≤ 255) :
    read_header (encodeHeader ts4 name ++ rest) =
      Except.ok (⟨[48, 49], leVal ts4, name, 11⟩, 20 + 2 + 4 + 1 + name.length + 1) := by
  rw [read_header_encoded ts4 name rest hts hascii]
  norm_num
  omega

/-- Witness for C7 at a concrete header. -/
theorem c7_header_contract_witness :
    read_header (encodeHeader [1, 2, 3, 4] [110, 111, 100, 101, 45, 48, 55] ++ []) =
      Except.ok (⟨[48, 49], 67305985, [110, 111, 100, 101, 45, 48, 55], 11⟩, 35) := by
  have h := c7_header_contract [1, 2, 3, 4] [110, 111, 100, 101, 45, 48, 55] []
    (by decide) (by decide) (by decide) (by decide)
  rw [h]
  decide

/-! Case analysis of one successful iteration. -/

theorem step_ok_cases (data : List Nat) (nsc : Nat) (s s2 : DState)
    (h : step data nsc s = Except.ok s2) :
    (∃ r, s2 = { s with pos := s2.pos, loudness := s.loudness ++ [r] }) ∨
    (∃ r, s2 = { s with pos := s2.pos, sharpness := s.sharpness ++ [r] }) ∨
    (∃ r, r.probs.length = nsc ∧ s2 = { s with pos := s2.pos, source := s.source ++ [r] }) ∨
    (∃ r, s2 = { s with pos := s2.pos, voltage := s.voltage ++ [r] }) ∨
    (∃ r, s2 = { s with pos := s2.pos, event_log := s.event_log ++ [r] }) ∨
    (∃ d, s2 = { s with pos := s2.pos, diags := s.diags ++ [d] }) := by
  rw [step, stepBody] at h
  repeat' split at h
  all_goals try exact Except.noConfusion h
  all_goals rw [Except.ok.injEq] at h
  all_goals subst h
  all_goals first
    | exact Or.inl ⟨_, rfl⟩
    | exact Or.inr (Or.inl ⟨_, rfl⟩)
    | exact Or.inr (Or.inr (Or.inr (Or.inl ⟨_, rfl⟩)))
    | exact Or.inr (Or.inr (Or.inr (Or.inr (Or.inl ⟨_, rfl⟩))))
    | exact Or.inr (Or.inr (Or.inr (Or.inr (Or.inr ⟨_, rfl⟩))))
    | (refine Or.inr (Or.inr (Or.inl ⟨_, ?_, rfl⟩))
       exact readFloats_ok_shape data nsc _ _ _ (by assumption))

theorem readExact_ok_inv (data : List Nat) (p n : Nat) (bs : List Nat) (p2 : Nat)
    (h : readExact data p n = Except.ok (bs, p2)) :
    bs = readRaw data p n ∧ p2 = p + n ∧ p + n ≤ data.length := by
  rw [readExact] at h
  split at h
  · rename_i hle
    rw [Except.ok.injEq, Prod.mk.injEq] at h
    exact ⟨h.1.symm, h.2.symm, hle⟩
  · exact Except.noConfusion h

theorem readF32_ok_inv (data : List Nat) (p : Nat) (v : F32) (p2 : Nat)
    (h : readF32 data p = Except.ok (v, p2)) :
    v = f32val (leVal (readRaw data p 4)) ∧ p2 = p + 4 ∧ p + 4 ≤ data.length := by
  rw [readF32] at h
  cases he : readExact data p 4 with
  | error e => rw [he] at h; exact Except.noConfusion h
  | ok bp =>
    obtain ⟨bs, p3⟩ := bp
    rw [he] at h
    rw [Except.ok.injEq, Prod.mk.injEq] at h
    obtain ⟨hbs, hp3, hle⟩ := readExact_ok_inv data p 4 bs p3 he
    exact ⟨by rw [← h.1, hbs], by omega, hle⟩

theorem length_one_leVal (l : List Nat) (b : Nat) (hl : l.length = 1) (hv : leVal l = b) :
    l = [b] := by
  cases l with
  | nil => simp at hl
  | cons x xs =>
    cases xs with
    | nil =>
      simp [leVal] at hv
      rw [← hv]
    | cons y ys => simp at hl

theorem stepBody_type0 (data : List Nat) (nsc : Nat) (s : DState) (p : Nat)
    (hread : readRaw data p 1 = [0]) (hb : p + 17 ≤ data.length) :
    stepBody data nsc p s =
      match splA (f32val (leVal (readRaw data (p + 9) 4))) with
      | some spl => Except.ok { s with pos := p + 17, loudness := s.loudness ++ [⟨toSigned64 (leVal (readRaw data (p + 1) 8)), f32val (leVal (readRaw data (p + 9) 4)), spl⟩] }
      | none => Except.ok { s with pos := p + 17, diags := s.diags ++ [⟨s.loudness.length, 0, toSigned64 (leVal (readRaw data (p + 1) 8)), f32val (leVal (readRaw data (p + 9) 4))⟩] } := by
  have h1 : readExact data p 1 = Except.ok ([0], p + 1) := by
    rw [readExact_ok data p 1 (by omega), hread]
  have h2 : readExact data (p + 1) 8 = Except.ok (readRaw data (p + 1) 8, p + 9) := by
    have := readExact_ok data (p + 1) 8 (by omega)
    rw [show p + 1 + 8 = p + 9 from by omega] at this
    exact this
  have h3 : readF32 data (p + 9) = Except.ok (f32val (leVal (readRaw data (p + 9) 4)), p + 13) := by
    rw [readF32, readExact_ok data (p + 9) 4 (by omega)]
  have h4 : readF32 data (p + 13) =
      Except.ok (f32val (leVal (readRaw data (p + 13) 4)), p + 17) := by
    rw [readF32, readExact_ok data (p + 13) 4 (by omega)]
  rw [stepBody]
  simp only [h1, h2, leVal_single, h3, h4]
  norm_num

/-- C9: every successful loop iteration appends exactly one record to exactly
one of the five output sequences (or, for the recovered type-0 conversion
failure, one diagnostic), leaving every other sequence and every
already-appended record untouched: the sequences are disjoint and
append-only. -/
theorem c9_append_only (data : List Nat) (nsc : Nat) (s s2 : DState)
    (h : step data nsc s = Except.ok s2) :
    (∃ r, s2 = { s with pos := s2.pos, loudness := s.loudness ++ [r] }) ∨
    (∃ r, s2 = { s with pos := s2.pos, sharpness := s.sharpness ++ [r] }) ∨
    (∃ r, r.probs.length = nsc ∧ s2 = { s with pos := s2.pos, source := s.source ++ [r] }) ∨
    (∃ r, s2 = { s with pos := s2.pos, voltage := s.voltage ++ [r] }) ∨
    (∃ r, s2 = { s with pos := s2.pos, event_log := s.event_log ++ [r] }) ∨
    (∃ d, s2 = { s with pos := s2.pos, diags := s.diags ++ [d] }) :=
  step_ok_cases data nsc s s2 h

/-- Witness for C9 at a concrete type-110 entry. -/
theorem c9_append_only_witness :
    (∃ r, (⟨9, [], [], [], [], [⟨5, "TIME_FROM_NTP", EValue.int 0⟩], []⟩ : DState) =
      { (⟨0, [], [], [], [], [], []⟩ : DState) with pos := 9, loudness := [] ++ [r] }) ∨
    (∃ r, (⟨9, [], [], [], [], [⟨5, "TIME_FROM_NTP", EValue.int 0⟩], []⟩ : DState) =
      { (⟨0, [], [], [], [], [], []⟩ : DState) with pos := 9, sharpness := [] ++ [r] }) ∨
    (∃ r, r.probs.length = 11 ∧
      (⟨9, [], [], [], [], [⟨5, "TIME_FROM_NTP", EValue.int 0⟩], []⟩ : DState) =
      { (⟨0, [], [], [], [], [], []⟩ : DState) with pos := 9, source := [] ++ [r] }) ∨
    (∃ r, (⟨9, [], [], [], [], [⟨5, "TIME_FROM_NTP", EValue.int 0⟩], []⟩ : DState) =
      { (⟨0, [], [], [], [], [], []⟩ : DState) with pos := 9, voltage := [] ++ [r] }) ∨
    (∃ r, (⟨9, [], [], [], [], [⟨5, "TIME_FROM_NTP", EValue.int 0⟩], []⟩ : DState) =
      { (⟨0, [], [], [], [], [], []⟩ : DState) with pos := 9, event_log := [] ++ [r] }) ∨
    (∃ d, (⟨9, [], [], [], [], [⟨5, "TIME_FROM_NTP", EValue.int 0⟩], []⟩ : DState) =
      { (⟨0, [], [], [], [], [], []⟩ : DState) with pos := 9, diags := [] ++ [d] }) :=
  c9_append_only [110, 5, 0, 0, 0, 0, 0, 0, 0] 11 ⟨0, [], [], [], [], [], []⟩
    ⟨9, [], [], [], [], [⟨5, "TIME_FROM_NTP", EValue.int 0⟩], []⟩ (by decide)

/-- C6: a type-1 entry whose remaining payload is shorter than
`num_source_classes` times four bytes fails with `underflow`, and a
successful iteration never appends a source record with a probability vector
of any width other than `num_source_classes`. -/
theorem c6_type1_underflow :
    (∀ (data : List Nat) (nsc : Nat) (s : DState) (p : Nat),
      p = markerProbe data s.pos →
      readRaw data p 1 = [1] →
      p + 9 ≤ data.length →
      data.length < p + 9 + 4 * nsc →
      step data nsc s = Except.error FormatError.underflow) ∧
    (∀ (data : List Nat) (nsc : Nat) (s s2 : DState),
      step data nsc s = Except.ok s2 →
      ∀ r ∈ s2.source, r ∈ s.source ∨ r.probs.length = nsc) := by
  constructor
  · intro data nsc s p hp hread hb hlt
    obtain ⟨k, rfl⟩ : ∃ k, nsc = k + 1 := by
      cases nsc with
      | zero => exact absurd hlt (by omega)
      | succ k => exact ⟨k, rfl⟩
    have h1 : readExact data p 1 = Except.ok ([1], p + 1) := by
      rw [readExact_ok data p 1 (by omega), hread]
    have h2 : readExact data (p + 1) 8 = Except.ok (readRaw data (p + 1) 8, p + 9) := by
      have := readExact_ok data (p + 1) 8 (by omega)
      rw [show p + 1 + 8 = p + 9 from by omega] at this
      exact this
    have h3 : readFloats data (p + 9) (k + 1) = Except.error FormatError.underflow :=
      readFloats_err data k (p + 9) (by omega)
    rw [step, ← hp, stepBody]
    simp only [h1, h2, leVal_single, h3]
    norm_num
  · intro data nsc s s2 h r hr
    rcases step_ok_cases data nsc s s2 h with
      ⟨r2, h2⟩ | ⟨r2, h2⟩ | ⟨r2, hlen, h2⟩ | ⟨r2, h2⟩ | ⟨r2, h2⟩ | ⟨d, h2⟩
    · rw [h2] at hr
      exact Or.inl hr
    · rw [h2] at hr
      exact Or.inl hr
    · rw [h2] at hr
      simp only [List.mem_append, List.mem_singleton] at hr
      rcases hr with hr | hr
      · exact Or.inl hr
      · rw [hr]
        exact Or.inr hlen
    · rw [h2] at hr
      exact Or.inl hr
    · rw [h2] at hr
      exact Or.inl hr
    · rw [h2] at hr
      exact Or.inl hr

/-- Witness for C6: a type-1 entry with a two-byte payload under
`num_source_classes = 11` underflows, and a successful type-100 iteration
keeps the source sequence intact. -/
theorem c6_type1_underflow_witness :
    step [1, 7, 0, 0, 0, 0, 0, 0, 0, 0, 0] 11 ⟨0, [], [], [], [], [], []⟩ =
      Except.error FormatError.underflow ∧
    (∀ r ∈ (⟨11, [], [], [], [⟨5, 3300⟩], [], []⟩ : DState).source,
      r ∈ (⟨0, [], [], [], [], [], []⟩ : DState).source ∨ r.probs.length = 11) :=
  ⟨(c6_type1_underflow).1 [1, 7, 0, 0, 0, 0, 0, 0, 0, 0, 0] 11 ⟨0, [], [], [], [], [], []⟩ 0
      (by decide) (by decide) (by decide) (by decide),
   (c6_type1_underflow).2 [100, 5, 0, 0, 0, 0, 0, 0, 0, 228, 12] 11 ⟨0, [], [], [], [], [], []⟩
      ⟨11, [], [], [], [⟨5, 3300⟩], [], []⟩ (by decide)⟩

theorem readRaw_length (data : List Nat) (p n : Nat) :
    (readRaw data p n).length = min n (data.length - p) := by
  simp [readRaw]

/-- Evaluation of the binary32 pattern of `60.0`. -/
theorem f32val_60 : f32val (leVal [0, 0, 112, 66]) = F32.fin 60 := by
  norm_num [f32val, leVal]

/-- Evaluation of the conversion at `dba = 60.0`. -/
theorem splA_60 : splA (f32val (leVal [0, 0, 112, 66])) = some (PyFloat.exact 1000000) := by
  rw [f32val_60]
  norm_num [splA, show ((60 : ℚ) / 10) = 6 from by norm_num, show Int.toNat 6 = 6 from rfl]

/-- Evaluation of the conversion at `dba = 4096.0`, where the modelled
exponentiation overflows. -/
theorem splA_4096 : splA (f32val (leVal [0, 0, 128, 69])) = none := by
  norm_num [f32val, leVal, splA]

/-- C4: a type-0 entry whose dBA-to-SPL conversion fails does not abort the
decode: the iteration succeeds, drops only that loudness sample, emits one
diagnostic carrying the entry index, the entry type, the timestamp and the
raw dBA value, and the loop continues; moreover a diagnostic is emitted only
by that branch, and every error raised by an iteration aborts the whole
loop — the conversion is the sole locally-recovered failure. -/
theorem c4_conversion_recovery :
    (∀ (data : List Nat) (nsc : Nat) (s : DState) (p : Nat),
      p = markerProbe data s.pos →
      readRaw data p 1 = [0] →
      p + 17 ≤ data.length →
      splA (f32val (leVal (readRaw data (p + 9) 4))) = none →
      step data nsc s = Except.ok { s with pos := p + 17, diags := s.diags ++ [⟨s.loudness.length, 0, toSigned64 (leVal (readRaw data (p + 1) 8)), f32val (leVal (readRaw data (p + 9) 4))⟩] }) ∧
    (∀ (data : List Nat) (nsc fuel : Nat) (s s2 : DState),
      s.pos < data.length → step data nsc s = Except.ok s2 →
      loopAux data nsc (fuel + 1) s = loopAux data nsc fuel s2) ∧
    (∀ (data : List Nat) (nsc : Nat) (s s2 : DState),
      step data nsc s = Except.ok s2 → s2.diags ≠ s.diags →
      s2.loudness = s.loudness ∧ s2.sharpness = s.sharpness ∧ s2.source = s.source ∧
        s2.voltage = s.voltage ∧ s2.event_log = s.event_log ∧
        readRaw data (markerProbe data s.pos) 1 = [0] ∧
        splA (f32val (leVal (readRaw data (markerProbe data s.pos + 9) 4))) = none) ∧
    (∀ (data : List Nat) (nsc fuel : Nat) (s : DState) (e : FormatError),
      s.pos < data.length → step data nsc s = Except.error e →
      loopAux data nsc (fuel + 1) s = Except.error e) := by
  refine ⟨?_, ?_, ?_, ?_⟩
  · intro data nsc s p hp hread hb hnone
    rw [step, ← hp, stepBody_type0 data nsc s p hread hb, hnone]
  · exact fun data nsc fuel s s2 h hs => loopAux_cont data nsc fuel s s2 h hs
  · intro data nsc s s2 h hne
    rw [step, stepBody] at h
    cases h1 : readExact data (markerProbe data s.pos) 1 with
    | error e => simp only [h1] at h; exact Except.noConfusion h
    | ok v1 =>
    obtain ⟨tb, p1⟩ := v1
    simp only [h1] at h
    cases h2 : readExact data p1 8 with
    | error e => simp only [h2] at h; exact Except.noConfusion h
    | ok v2 =>
    obtain ⟨t8, p2⟩ := v2
    simp only [h2] at h
    obtain ⟨htb, hp1, hle1⟩ := readExact_ok_inv data (markerProbe data s.pos) 1 tb p1 h1
    obtain ⟨ht8, hp2, hle2⟩ := readExact_ok_inv data p1 8 t8 p2 h2
    by_cases ht0 : leVal tb = 0
    · rw [if_pos ht0] at h
      cases h3 : readF32 data p2 with
      | error e => simp only [h3] at h; exact Except.noConfusion h
      | ok v3 =>
      obtain ⟨dba, p3⟩ := v3
      simp only [h3] at h
      cases h4 : readF32 data p3 with
      | error e => simp only [h4] at h; exact Except.noConfusion h
      | ok v4 =>
      obtain ⟨rsv, p4⟩ := v4
      simp only [h4] at h
      obtain ⟨hdba, hp3, hle3⟩ := readF32_ok_inv data p2 dba p3 h3
      cases h5 : splA dba with
      | some spl =>
        simp only [h5] at h
        rw [Except.ok.injEq] at h
        subst h
        exact absurd rfl hne
      | none =>
        simp only [h5] at h
        rw [Except.ok.injEq] at h
        subst h
        refine ⟨rfl, rfl, rfl, rfl, rfl, ?_, ?_⟩
        · rw [← htb]
          apply length_one_leVal tb 0
          · rw [htb, readRaw_length]
            omega
          · exact ht0
        · rw [show markerProbe data s.pos + 9 = p2 from by omega, ← hdba]
          exact h5
    · rw [if_neg ht0] at h
      repeat' split at h
      all_goals try exact Except.noConfusion h
      all_goals rw [Except.ok.injEq] at h
      all_goals subst h
      all_goals exact absurd rfl hne
  · exact fun data nsc fuel s e h hs => loopAux_err data nsc fuel s e h hs

/-- Witness for C4: the conversion-failure branch at `dba = 4096.0`, loop
continuation after a successful iteration, and loop abort on an error. -/
theorem c4_conversion_recovery_witness :
    step [0, 5, 0, 0, 0, 0, 0, 0, 0, 0, 0, 128, 69, 0, 0, 0, 0] 11 ⟨0, [], [], [], [], [], []⟩ =
      Except.ok ⟨17, [], [], [], [], [], [⟨0, 0, 5, f32val (leVal [0, 0, 128, 69])⟩]⟩ ∧
    loopAux [110, 5, 0, 0, 0, 0, 0, 0, 0] 11 3 ⟨0, [], [], [], [], [], []⟩ =
      loopAux [110, 5, 0, 0, 0, 0, 0, 0, 0] 11 2
        ⟨9, [], [], [], [], [⟨5, "TIME_FROM_NTP", EValue.int 0⟩], []⟩ ∧
    loopAux [200, 232, 3, 0, 0, 0, 0, 0, 0] 11 4 ⟨0, [], [], [], [], [], []⟩ =
      Except.error (FormatError.unknownEntryType 200 1000) := by
  refine ⟨?_, ?_, ?_⟩
  · have h := (c4_conversion_recovery).1 [0, 5, 0, 0, 0, 0, 0, 0, 0, 0, 0, 128, 69, 0, 0, 0, 0]
      11 ⟨0, [], [], [], [], [], []⟩ 0 (by decide) (by decide) (by decide)
      (by rw [show readRaw [0, 5, 0, 0, 0, 0, 0, 0, 0, 0, 0, 128, 69, 0, 0, 0, 0] 9 4 =
            [0, 0, 128, 69] from by decide]
          exact splA_4096)
    rw [h]
    rfl
  · exact (c4_conversion_recovery).2.1 [110, 5, 0, 0, 0, 0, 0, 0, 0] 11 2
      ⟨0, [], [], [], [], [], []⟩ ⟨9, [], [], [], [], [⟨5, "TIME_FROM_NTP", EValue.int 0⟩], []⟩
      (by decide) (by decide)
  · exact (c4_conversion_recovery).2.2.2 [200, 232, 3, 0, 0, 0, 0, 0, 0] 11 3
      ⟨0, [], [], [], [], [], []⟩ (FormatError.unknownEntryType 200 1000)
      (by decide) (by decide)

theorem read_sscm_eq (data : List Nat) (h : Header) (pos : Nat) (s : DState)
    (hh : read_header data = Except.ok (h, pos))
    (hl : loopAux data h.num_source_classes data.length ⟨pos, [], [], [], [], [], []⟩ =
      Except.ok s) :
    read_sscm data = Except.ok ⟨h.sensor_name, s.loudness, s.sharpness, s.source,
      s.voltage, s.event_log, s.diags⟩ := by
  rw [read_sscm, hh]
  simp only [hl]

/-- C8: a successfully converted type-0 entry appends exactly the loudness
record built from its timestamp, its raw dBA value and the converted
`spl_a`, with the reserved float read and discarded; in particular the
documented example stream (header with sensor name `node-07`, one type-0
entry with `time_ms = 1000` and `dba = 60.0`) decodes to the single loudness
record with time 1000, dBA 60 and `spl_a` exactly one million. -/
theorem c8_type0_record :
    (∀ (data : List Nat) (nsc : Nat) (s : DState) (p : Nat) (v : PyFloat),
      p = markerProbe data s.pos →
      readRaw data p 1 = [0] →
      p + 17 ≤ data.length →
      splA (f32val (leVal (readRaw data (p + 9) 4))) = some v →
      step data nsc s = Except.ok { s with pos := p + 17, loudness := s.loudness ++ [⟨toSigned64 (leVal (readRaw data (p + 1) 8)), f32val (leVal (readRaw data (p + 9) 4)), v⟩] }) ∧
    read_sscm (encodeHeader [0, 0, 0, 0] [110, 111, 100, 101, 45, 48, 55] ++
        encodePlain [Entry.loudE 1000 [0, 0, 112, 66] [0, 0, 0, 0]]) =
      Except.ok ⟨[110, 111, 100, 101, 45, 48, 55],
        [⟨1000, F32.fin 60, PyFloat.exact 1000000⟩], [], [], [], [], []⟩ := by
  constructor
  · intro data nsc s p v hp hread hb hsome
    rw [step, ← hp, stepBody_type0 data nsc s p hread hb, hsome]
  · set nm : List Nat := [110, 111, 100, 101, 45, 48, 55] with hnm
    set e0 : Entry := Entry.loudE 1000 [0, 0, 112, 66] [0, 0, 0, 0] with he0
    set data := encodeHeader [0, 0, 0, 0] nm ++ encodePlain [e0] with hdata
    have hhdr : read_header data = Except.ok (⟨[48, 49], 0, nm, 11⟩, 35) := by
      have := read_header_encoded [0, 0, 0, 0] nm (encodePlain [e0]) (by decide) (by decide)
      rw [hdata, this]
      norm_num [leVal, hnm]
    have hlen : data.length = 52 := by decide
    have hstep : step data 11 ⟨35, [], [], [], [], [], []⟩ =
        Except.ok { entryEffect e0 ⟨35, [], [], [], [], [], []⟩ with
          pos := 35 + (encodeEntry e0).length } := by
      apply step_plain data (encodeHeader [0, 0, 0, 0] nm) [] 11 e0
        ⟨35, [], [], [], [], [], []⟩ (by decide)
      · rw [hdata]
        decide
      · decide
    have heff : entryEffect e0 ⟨35, [], [], [], [], [], []⟩ =
        ⟨35, [⟨1000, F32.fin 60, PyFloat.exact 1000000⟩], [], [], [], [], []⟩ := by
      rw [he0, entryEffect]
      rw [show splA (f32val (leVal [0, 0, 112, 66])) = some (PyFloat.exact 1000000) from splA_60,
        f32val_60]
      rfl
    have henc : (encodeEntry e0).length = 17 := by decide
    have hs1 : { entryEffect e0 ⟨35, [], [], [], [], [], []⟩ with
        pos := 35 + (encodeEntry e0).length } =
        (⟨52, [⟨1000, F32.fin 60, PyFloat.exact 1000000⟩], [], [], [], [], []⟩ : DState) := by
      rw [heff, henc]
    have hloop : loopAux data 11 data.length ⟨35, [], [], [], [], [], []⟩ =
        Except.ok ⟨52, [⟨1000, F32.fin 60, PyFloat.exact 1000000⟩], [], [], [], [], []⟩ := by
      rw [hlen, show (52 : Nat) = 51 + 1 from rfl]
      rw [loopAux_cont data 11 51 ⟨35, [], [], [], [], [], []⟩ _ (by rw [hlen]; norm_num) hstep]
      rw [hs1]
      exact loopAux_done data 11 _ (by rw [hlen]; norm_num) 51
    exact read_sscm_eq data ⟨[48, 49], 0, nm, 11⟩ 35
      ⟨52, [⟨1000, F32.fin 60, PyFloat.exact 1000000⟩], [], [], [], [], []⟩ hhdr hloop

/-- Witness for C8: one bare type-0 entry with `time_ms = 1000`,
`dba = 60.0`. -/
theorem c8_type0_record_witness :
    step [0, 232, 3, 0, 0, 0, 0, 0, 0, 0, 0, 112, 66, 0, 0, 0, 0] 11
        ⟨0, [], [], [], [], [], []⟩ =
      Except.ok ⟨17, [⟨1000, F32.fin 60, PyFloat.exact 1000000⟩], [], [], [], [], []⟩ := by
  have h := (c8_type0_record).1 [0, 232, 3, 0, 0, 0, 0, 0, 0, 0, 0, 112, 66, 0, 0, 0, 0] 11
    ⟨0, [], [], [], [], [], []⟩ 0 (PyFloat.exact 1000000) (by decide) (by decide) (by decide)
    (by rw [show readRaw [0, 232, 3, 0, 0, 0, 0, 0, 0, 0, 0, 112, 66, 0, 0, 0, 0] 9 4 =
          [0, 0, 112, 66] from by decide]
        exact splA_60)
  rw [h]
  norm_num [show readRaw [0, 232, 3, 0, 0, 0, 0, 0, 0, 0, 0, 112, 66, 0, 0, 0, 0] 9 4 =
      [0, 0, 112, 66] from by decide,
    show readRaw [0, 232, 3, 0, 0, 0, 0, 0, 0, 0, 0, 112, 66, 0, 0, 0, 0] 1 8 =
      [232, 3, 0, 0, 0, 0, 0, 0] from by decide,
    f32val_60,
    show toSigned64 (leVal [232, 3, 0, 0, 0, 0, 0, 0]) = 1000 from by decide]

end SSCM
